import Mathlib

/-!
Verification of the sealos-state-metrics configurable-collector engine and
windowed aggregators, shallowly embedded from the Go sources.

Conventions of the embedding:
  * Go `map[string]T` values are modelled as association lists
    `List (String × T)`; the operations below (`alookup`, `aset`, `aerase`,
    `aupsert`) mirror Go map read, assignment and delete.  Go's map iteration
    order is unspecified; the model iterates in list order, which fixes one
    admissible order.
  * The generic attribute tree of an `unstructured.Unstructured` object is the
    inductive `Value` (null / bool / number / string / object / array), with
    Go `float64` modelled as `ℚ`.
  * `time.Time` and `time.Duration` are modelled as `ℤ` nanoseconds, matching
    Go's `int64` nanosecond representation; `t.Before(u)` is `t < u`.
-/

namespace SealosStateMetrics

/-- Association-list lookup, mirroring a Go map read `m[k]` (with its ok flag
collapsed into `Option`). -/
def alookup {β : Type} (k : String) : List (String × β) → Option β
  | [] => none
  | (k2, v) :: rest => if k2 = k then some v else alookup k rest

/-- Association-list update mirroring a Go map entry mutation: the first
binding for `k` is rewritten with `f`; when `k` is absent, `(k, init)` is
appended. -/
def aupsert {β : Type} (k : String) (f : β → β) (init : β) :
    List (String × β) → List (String × β)
  | [] => [(k, init)]
  | (k2, v) :: rest =>
      if k2 = k then (k2, f v) :: rest else (k2, v) :: aupsert k f init rest

/-- Association-list assignment, mirroring Go `m[k] = v`. -/
def aset {β : Type} (k : String) (v : β) (l : List (String × β)) :
    List (String × β) :=
  aupsert k (fun _ => v) v l

/-- Association-list deletion, mirroring Go `delete(m, k)`. -/
def aerase {β : Type} (k : String) : List (String × β) → List (String × β)
  | [] => []
  | kv :: rest => if kv.1 = k then aerase k rest else kv :: aerase k rest

/-- Association-list conditional retention: keep the bindings whose value
satisfies `keep`, mirroring a Go loop that deletes the entries failing it. -/
def afilter {β : Type} (keep : β → Bool) : List (String × β) → List (String × β)
  | [] => []
  | kv :: rest => if keep kv.2 then kv :: afilter keep rest else afilter keep rest

/-! ## The generic attribute tree and the path extractor

Embeds `pkg/collector/dynamic/helpers.go`.  An `unstructured` object's
attribute tree is a nesting of maps, slices and scalars produced by JSON
decoding; `Value` is its tagged-union model. -/

/-- One node of an object's attribute tree: the dynamic values stored inside
`map[string]interface` trees of `unstructured.Unstructured`. -/
inductive Value : Type where
  | null : Value
  | bool (b : Bool) : Value
  | num (q : ℚ) : Value
  | str (s : String) : Value
  | dict (entries : List (String × Value)) : Value
  | arr (elems : List Value) : Value

/-- An unstructured Kubernetes object: `obj.Object` is the root attribute
map. -/
structure Unstructured where
  object : List (String × Value)

/-- Go type assertion `v.(string)` with the error discarded: the string value,
or the zero string when the value is absent or not a string. -/
def goStr : Option Value → String
  | some (Value.str s) => s
  | _ => ""

/-- Character-level splitter behind `splitPath`: splits a character list at
every occurrence of `c`, keeping empty groups, as Go `strings.Split` does for
a one-character separator. -/
def splitOnChar (c : Char) : List Char → List (List Char)
  | [] => [[]]
  | ch :: rest =>
      if ch = c then [] :: splitOnChar c rest
      else
        match splitOnChar c rest with
        | [] => [[ch]]
        | g :: gs => (ch :: g) :: gs

/-- Embeds `strings.Split(path, ".")` as used by every extractor. -/
def splitPath (path : String) : List String :=
  (splitOnChar '.' path.toList).map (fun g => String.mk g)

/-- Successive map navigation of `unstructured.NestedFieldNoCopy`: at each
path segment the current value must be a map and the segment must be present,
otherwise the lookup reports nothing (the caller treats not-found and
wrong-shape errors alike). -/
def nestedField : Value → List String → Option Value
  | v, [] => some v
  | v, seg :: rest =>
      match v with
      | Value.dict es =>
          match alookup seg es with
          | some v2 => nestedField v2 rest
          | none => none
      | _ => none

/-- Embeds `extractFieldString`: split the dot-separated path, navigate, and
return the string found there, or the empty string on any failure. -/
def extractFieldString (o : Unstructured) (path : String) : String :=
  if path = "" then ""
  else goStr (nestedField (Value.dict o.object) (splitPath path))

/-- Decimal-notation core of `strconv.ParseFloat`: digits with an optional
single decimal point, at least one digit required.  Exponent, hexadecimal and
infinity forms of the Go parser are not exercised by this code base and are
modelled as parse failures. -/
def parseDecimal (cs : List Char) : Option ℚ :=
  let intPart := cs.takeWhile Char.isDigit
  let rest := cs.dropWhile Char.isDigit
  let natVal : List Char → ℕ :=
    fun ds => ds.foldl (fun a c => a * 10 + (c.toNat - Char.toNat '0')) 0
  match rest with
  | [] => if intPart.isEmpty then none else some ((natVal intPart : ℚ))
  | '.' :: frac =>
      if frac.all Char.isDigit && !(intPart.isEmpty && frac.isEmpty) then
        some ((natVal intPart : ℚ) + (natVal frac : ℚ) / ((10 : ℚ) ^ frac.length))
      else none
  | _ => none

/-- Embeds `strconv.ParseFloat` as used by `toFloat64`: an optional sign
followed by a decimal number; `none` models a parse error. -/
def parseGoFloat? (s : String) : Option ℚ :=
  match s.toList with
  | [] => none
  | '+' :: rest => parseDecimal rest
  | '-' :: rest => (parseDecimal rest).map Neg.neg
  | cs => parseDecimal cs

/-- The Go call `f, _ := strconv.ParseFloat(v, 64)`: the parsed value, with
`0` left in `f` when parsing fails. -/
def parseGoFloat (s : String) : ℚ :=
  (parseGoFloat? s).getD 0

/-- Embeds `toFloat64`: numeric kinds pass through, booleans map to 1/0,
strings are best-effort parsed, everything else converts to 0. -/
def toFloat64 : Value → ℚ
  | Value.num q => q
  | Value.bool b => if b then 1 else 0
  | Value.str s => parseGoFloat s
  | _ => 0

/-- Embeds `extractFieldFloat`: navigate the path and convert the value found
there, returning 0 on an empty path or a failed navigation. -/
def extractFieldFloat (o : Unstructured) (path : String) : ℚ :=
  if path = "" then 0
  else
    match nestedField (Value.dict o.object) (splitPath path) with
    | some v => toFloat64 v
    | none => 0

/-- Embeds `extractFieldMap`: the map found at the path, or `none` (Go `nil`)
on an empty path, a failed navigation, or a non-map value. -/
def extractFieldMap (o : Unstructured) (path : String) :
    Option (List (String × Value)) :=
  if path = "" then none
  else
    match nestedField (Value.dict o.object) (splitPath path) with
    | some (Value.dict es) => some es
    | _ => none

/-- Embeds `extractFieldSlice`: the slice found at the path, or `none` (Go
`nil`) on an empty path, a failed navigation, or a non-slice value. -/
def extractFieldSlice (o : Unstructured) (path : String) :
    Option (List Value) :=
  if path = "" then none
  else
    match nestedField (Value.dict o.object) (splitPath path) with
    | some (Value.arr es) => some es
    | _ => none

/-! ## The configurable collector

Embeds the `dynamic` package's `ConfigurableCollector`: configuration model,
descriptor construction (`initMetrics`), the resource cache event handlers and
the six metric-type strategies used by `collect`. -/

/-- Embeds `ConditionConfig`: optional overrides for the field names read by
the `conditions` strategy. -/
structure ConditionConfig where
  typeField : String
  statusField : String
  reasonField : String
deriving DecidableEq

/-- Embeds `MetricConfig`: one declarative metric definition. -/
structure MetricConfig where
  type : String
  name : String
  help : String
  path : String
  valuePath : String
  keyLabel : String
  valueLabel : String
  labels : List (String × String)
  condition : Option ConditionConfig
deriving DecidableEq

/-- Embeds `CRDConfig` restricted to the fields the collector itself reads;
the informer-side fields (GVR identity, namespace filter, resync period) do
not influence descriptor construction or collection and are omitted. -/
structure CRDConfig where
  name : String
  commonLabels : List (String × String)
  metrics : List MetricConfig

/-- Embeds `prometheus.Desc` up to the data this collector feeds it: final
metric name, help text and ordered label names. -/
structure Desc where
  fqName : String
  help : String
  labelNames : List String
deriving DecidableEq

/-- One emitted metric tuple: ordered label values plus the sample value, the
data `prometheus.MustNewConstMetric` receives. -/
structure MetricSample where
  labelValues : List String
  value : ℚ
deriving DecidableEq

/-- Embeds `getSortedKeys`: the map's keys in sorted order. -/
def getSortedKeys (m : List (String × String)) : List String :=
  (m.map Prod.fst).insertionSort (· ≤ ·)

/-- Embeds `getSortedValues`: the map's values in sorted key order (a present
key always resolves; the empty string stands for Go's zero value otherwise). -/
def getSortedValues (m : List (String × String)) : List String :=
  (getSortedKeys m).map (fun k => (alookup k m).getD "")

/-- Character-wise lower-casing over the character list (the strings this
code lower-cases are ASCII once sanitized, where Go `strings.ToLower` and
per-character lowering agree). -/
def lowerString (s : String) : String :=
  String.mk (s.toList.map Char.toLower)

/-- Embeds `sanitizeName`: replace every character outside `[a-zA-Z0-9_]`
with an underscore, then lower-case. -/
def sanitizeName (name : String) : String :=
  lowerString (String.mk (name.toList.map (fun r =>
    if (('a' ≤ r && r ≤ 'z') || ('A' ≤ r && r ≤ 'Z') ||
        ('0' ≤ r && r ≤ '9') || r = '_') then r else '_')))

/-- Embeds `prometheus.BuildFQName` with an empty subsystem: join the
non-empty parts with underscores. -/
def buildFQName (ns nm : String) : String :=
  if nm = "" then "" else if ns ≠ "" then ns ++ "_" ++ nm else nm

/-- The label-name vector `initMetrics` assembles for one metric definition,
mirroring its `switch metricCfg.Type` arm by arm; `none` is the `default`
arm that only logs a warning. -/
def metricLabelNames (commonLabelNames : List String) (mc : MetricConfig) :
    Option (List String) :=
  if mc.type = "info" then some (commonLabelNames ++ getSortedKeys mc.labels)
  else if mc.type = "count" then
    some [if mc.valueLabel = "" then "value" else mc.valueLabel]
  else if mc.type = "gauge" then some commonLabelNames
  else if mc.type = "map_state" then
    some (commonLabelNames ++ [mc.keyLabel, "state"])
  else if mc.type = "map_gauge" then some (commonLabelNames ++ [mc.keyLabel])
  else if mc.type = "conditions" then
    some (commonLabelNames ++ ["type", "status", "reason"])
  else none

/-- The six recognized metric type strings. -/
def recognizedMetricType (t : String) : Bool :=
  t == "info" || t == "count" || t == "gauge" || t == "map_state" ||
    t == "map_gauge" || t == "conditions"

/-- The loop body of `initMetrics` over the configured metric list: each
recognized metric stores a descriptor under its name; each unrecognized one
contributes a logged warning (its type string) and nothing else. -/
def initMetricsGo (pfx : String) (commonLabelNames : List String)
    (descs : List (String × Desc)) (warns : List String) :
    List MetricConfig → List (String × Desc) × List String
  | [] => (descs, warns)
  | mc :: rest =>
      match metricLabelNames commonLabelNames mc with
      | some lns =>
          initMetricsGo pfx commonLabelNames
            (aset mc.name ⟨buildFQName pfx mc.name, mc.help, lns⟩ descs)
            warns rest
      | none => initMetricsGo pfx commonLabelNames descs (warns ++ [mc.type]) rest

/-- Embeds `initMetrics`: build the name prefix, the sorted common label
names, and fold the metric definitions; returns the descriptor map together
with the unknown-type warnings that were logged. -/
def initMetrics (cfg : CRDConfig) (metricPrefix : String) :
    List (String × Desc) × List String :=
  let pfx :=
    if metricPrefix ≠ "" then metricPrefix ++ "_" ++ sanitizeName cfg.name
    else sanitizeName cfg.name
  initMetricsGo pfx (getSortedKeys cfg.commonLabels) [] [] cfg.metrics

/-- Embeds `ConfigurableCollector`: configuration, the resource cache keyed
by namespace/name, the descriptor map, and the warnings `initMetrics`
logged. -/
structure ConfigurableCollector where
  crdConfig : CRDConfig
  metricPrefix : String
  resources : List (String × Unstructured)
  descriptors : List (String × Desc)
  warnings : List String

/-- Embeds `NewConfigurableCollector`: construction always succeeds and runs
`initMetrics`; there is no error return. -/
def NewConfigurableCollector (cfg : CRDConfig) (metricPrefix : String) :
    ConfigurableCollector :=
  let dw := initMetrics cfg metricPrefix
  ⟨cfg, metricPrefix, [], dw.1, dw.2⟩

/-- Embeds `obj.GetNamespace()`: the string at `metadata.namespace`. -/
def getNamespace (o : Unstructured) : String :=
  goStr (nestedField (Value.dict o.object) ["metadata", "namespace"])

/-- Embeds `obj.GetName()`: the string at `metadata.name`. -/
def getName (o : Unstructured) : String :=
  goStr (nestedField (Value.dict o.object) ["metadata", "name"])

/-- The cache key `namespace + "/" + name` used by the event handlers. -/
def resourceKey (o : Unstructured) : String :=
  getNamespace o ++ "/" ++ getName o

/-- Embeds `handleAdd`: store the object under its key (unconditional
overwrite). -/
def handleAdd (c : ConfigurableCollector) (o : Unstructured) :
    ConfigurableCollector :=
  { c with resources := aset (resourceKey o) o c.resources }

/-- Embeds `handleUpdate`: delegates to `handleAdd` on the new object. -/
def handleUpdate (c : ConfigurableCollector) (oldO newO : Unstructured) :
    ConfigurableCollector :=
  handleAdd c newO

/-- Embeds `handleDelete`: remove the object's key from the cache. -/
def handleDelete (c : ConfigurableCollector) (o : Unstructured) :
    ConfigurableCollector :=
  { c with resources := aerase (resourceKey o) c.resources }

/-- Embeds `extractCommonLabels`: the common label values of one object, in
sorted-key order of the configured common labels. -/
def extractCommonLabels (cfg : CRDConfig) (o : Unstructured) : List String :=
  (getSortedValues cfg.commonLabels).map (fun p => extractFieldString o p)

/-- Embeds `collectInfoMetric`: one tuple, common labels plus the extra label
values in sorted-key order, constant value 1. -/
def collectInfoMetric (o : Unstructured) (cfg : MetricConfig)
    (commonLabels : List String) : List MetricSample :=
  [⟨commonLabels ++ (getSortedValues cfg.labels).map (fun p => extractFieldString o p), 1⟩]

/-- Embeds `collectGaugeMetric`: one tuple with the common labels and the
numeric value at the configured path. -/
def collectGaugeMetric (o : Unstructured) (cfg : MetricConfig)
    (commonLabels : List String) : List MetricSample :=
  [⟨commonLabels, extractFieldFloat o cfg.path⟩]

/-- The body of the `collectMapStateMetric` loop for one map entry: entries
that are not maps, or whose state at `valuePath` is missing, not a string,
or empty, yield nothing; otherwise one tuple labelled with the map key and
the current state, value 1. -/
def mapStateSample (valuePath : String) (commonLabels : List String)
    (kv : String × Value) : Option MetricSample :=
  match kv.2 with
  | Value.dict em =>
      let st := goStr (alookup valuePath em)
      if st = "" then none
      else some ⟨commonLabels ++ [kv.1, st], 1⟩
  | _ => none

/-- Embeds `collectMapStateMetric`: iterate the map at the configured path
(nothing when it is absent) emitting `mapStateSample` per entry. -/
def collectMapStateMetric (o : Unstructured) (cfg : MetricConfig)
    (commonLabels : List String) : List MetricSample :=
  ((extractFieldMap o cfg.path).getD []).filterMap
    (mapStateSample cfg.valuePath commonLabels)

/-- The numeric value `collectMapGaugeMetric` reads from one map entry: the
converted value at `valuePath` when present, else 0. -/
def mapGaugeValue (valuePath : String) (em : List (String × Value)) : ℚ :=
  match alookup valuePath em with
  | some rv => toFloat64 rv
  | none => 0

/-- The body of the `collectMapGaugeMetric` loop for one map entry: entries
that are not maps are skipped; otherwise one tuple labelled with the map key,
valued by `mapGaugeValue`. -/
def mapGaugeSample (valuePath : String) (commonLabels : List String)
    (kv : String × Value) : Option MetricSample :=
  match kv.2 with
  | Value.dict em => some ⟨commonLabels ++ [kv.1], mapGaugeValue valuePath em⟩
  | _ => none

/-- Embeds `collectMapGaugeMetric`: iterate the map at the configured path
emitting `mapGaugeSample` per entry. -/
def collectMapGaugeMetric (o : Unstructured) (cfg : MetricConfig)
    (commonLabels : List String) : List MetricSample :=
  ((extractFieldMap o cfg.path).getD []).filterMap
    (mapGaugeSample cfg.valuePath commonLabels)

/-- The field-name resolution at the top of `collectConditionsMetric`:
defaults `type`/`status`/`reason`, each overridden by a non-empty configured
field name. -/
def condFieldNames (cfg : MetricConfig) : String × String × String :=
  match cfg.condition with
  | none => ("type", "status", "reason")
  | some cc =>
      (if cc.typeField = "" then "type" else cc.typeField,
       if cc.statusField = "" then "status" else cc.statusField,
       if cc.reasonField = "" then "reason" else cc.reasonField)

/-- Embeds `strings.EqualFold` for the ASCII strings this code compares. -/
def eqFold (a b : String) : Bool :=
  lowerString a == lowerString b

/-- The body of the `collectConditionsMetric` loop for one array element:
non-map elements and elements whose type field resolves to the empty string
yield nothing; otherwise one tuple labelled type/status/reason, valued 1 when
the status case-insensitively equals true and 0 otherwise. -/
def conditionSample (tf sf rf : String) (commonLabels : List String)
    (cd : Value) : Option MetricSample :=
  match cd with
  | Value.dict cm =>
      let ct := goStr (alookup tf cm)
      let cs := goStr (alookup sf cm)
      let cr := goStr (alookup rf cm)
      if ct = "" then none
      else some ⟨commonLabels ++ [ct, cs, cr], if eqFold cs "true" then 1 else 0⟩
  | _ => none

/-- Embeds `collectConditionsMetric`: resolve the field names, iterate the
slice at the configured path emitting `conditionSample` per element. -/
def collectConditionsMetric (o : Unstructured) (cfg : MetricConfig)
    (commonLabels : List String) : List MetricSample :=
  ((extractFieldSlice o cfg.path).getD []).filterMap
    (conditionSample (condFieldNames cfg).1 (condFieldNames cfg).2.1
      (condFieldNames cfg).2.2 commonLabels)

/-- One step of the `valueCounts[value]++` accumulation in
`collectCountMetric`. -/
def bump (v : String) (acc : List (String × ℚ)) : List (String × ℚ) :=
  aupsert v (fun c => c + 1) 1 acc

/-- The loop body of the `valueCounts` accumulation: objects whose extracted
value is empty are skipped, every other discovered value is counted. -/
def countStep (path : String) (acc : List (String × ℚ))
    (kv : String × Unstructured) : List (String × ℚ) :=
  let v := extractFieldString kv.2 path
  if v = "" then acc else bump v acc

/-- The `valueCounts` accumulation of `collectCountMetric`: scan the cache,
extract the configured field of each object, and count every non-empty
discovered value. -/
def valueCounts (resources : List (String × Unstructured)) (path : String) :
    List (String × ℚ) :=
  resources.foldl (countStep path) []

/-- The number of cached objects whose extracted value at `path` is `v`. -/
def countOf (resources : List (String × Unstructured)) (path v : String) : ℕ :=
  resources.countP (fun kv => extractFieldString kv.2 path == v)

/-- Embeds `collectCountMetric`: one tuple per discovered value, labelled by
the value, carrying its count. -/
def collectCountMetric (resources : List (String × Unstructured))
    (cfg : MetricConfig) : List MetricSample :=
  (valueCounts resources cfg.path).map (fun vc => ⟨[vc.1], vc.2⟩)

/-- The per-resource strategy dispatch of `collect`'s first pass: the
`switch metricCfg.Type` that has no `count` arm and no default arm. -/
def collectPass1Metric (o : Unstructured) (mc : MetricConfig)
    (commonLabels : List String) : List MetricSample :=
  if mc.type = "info" then collectInfoMetric o mc commonLabels
  else if mc.type = "gauge" then collectGaugeMetric o mc commonLabels
  else if mc.type = "map_state" then collectMapStateMetric o mc commonLabels
  else if mc.type = "map_gauge" then collectMapGaugeMetric o mc commonLabels
  else if mc.type = "conditions" then collectConditionsMetric o mc commonLabels
  else []

/-- Embeds `collect`: first pass per cached resource over every configured
metric (skipping metrics without a descriptor), second pass for the
`count`-type aggregates; each emission is tagged with its metric's name. -/
def collect (c : ConfigurableCollector) : List (String × MetricSample) :=
  (c.resources.flatMap (fun kv =>
    let commonLabels := extractCommonLabels c.crdConfig kv.2
    c.crdConfig.metrics.flatMap (fun mc =>
      match alookup mc.name c.descriptors with
      | none => []
      | some _ => (collectPass1Metric kv.2 mc commonLabels).map
          (fun s2 => (mc.name, s2))))) ++
  c.crdConfig.metrics.flatMap (fun mc =>
    if mc.type ≠ "count" then []
    else
      match alookup mc.name c.descriptors with
      | none => []
      | some _ => (collectCountMetric c.resources mc).map
          (fun s2 => (mc.name, s2)))

/-! ## The windowed aggregators

Embeds the pod aggregator (`pkg/collector/pod`) and the event aggregator
(`pkg/collector/event/aggregator.go`).  The Go entry points guard against a
nil pod/event pointer by returning immediately; the model's operations take
the non-nil payload (the event side keeps the `Option` to mirror the guard).
Go map iteration inside `removeOldest` visits entries in an unspecified
order; the model visits them in list order, which fixes one admissible
order for breaking last-seen ties. -/

/-- The fields of `corev1.PodCondition` this code reads. -/
structure PodCondition where
  type : String
  status : String
deriving DecidableEq

/-- The fields of `corev1.Pod` this code reads. -/
structure Pod where
  ns : String
  name : String
  phase : String
  conditions : List PodCondition
deriving DecidableEq

/-- Embeds `AggregatedPod`: one bucket of the pod aggregator. -/
structure AggregatedPod where
  ns : String
  phase : String
  Count : ℕ
  LastSeen : ℤ
  Pods : Finset String
deriving DecidableEq

/-- The two maps owned by `PodAggregator`: buckets keyed by
namespace/phase, and the abnormal-pod first-seen tracker keyed by
namespace/pod. -/
structure PodAggState where
  aggregated : List (String × AggregatedPod)
  abnormalPods : List (String × ℤ)
deriving DecidableEq

/-- Embeds `podAggregationKey`. -/
def podAggregationKey (p : Pod) : String :=
  p.ns ++ "/" ++ p.phase

/-- Embeds `isPodAbnormal`: failed or unknown phase; pending with a false
PodScheduled condition; running with a false Ready condition. -/
def isPodAbnormal (p : Pod) : Bool :=
  if p.phase = "Failed" || p.phase = "Unknown" then true
  else if p.phase = "Pending" then
    p.conditions.any (fun c => c.type == "PodScheduled" && c.status == "False")
  else if p.phase = "Running" then
    p.conditions.any (fun c => c.type == "Ready" && c.status == "False")
  else false

/-- Embeds `AddPod`: grow or create the bucket (note the source computes the
new count as the member-set size before inserting the pod name) and record a
first-seen time for a newly abnormal pod. -/
def addPod (now : ℤ) (p : Pod) (s : PodAggState) : PodAggState :=
  let key := podAggregationKey p
  let aggregated :=
    aupsert key
      (fun agg =>
        { agg with Count := agg.Pods.card + 1, LastSeen := now,
                   Pods := insert p.name agg.Pods })
      { ns := p.ns, phase := p.phase, Count := 1, LastSeen := now,
        Pods := {p.name} }
      s.aggregated
  let abnormalPods :=
    if isPodAbnormal p then
      match alookup (p.ns ++ "/" ++ p.name) s.abnormalPods with
      | some _ => s.abnormalPods
      | none => aset (p.ns ++ "/" ++ p.name) now s.abnormalPods
    else s.abnormalPods
  ⟨aggregated, abnormalPods⟩

/-- Embeds `RemovePod`: drop the pod from its bucket's member set, recompute
the count as the set size, delete the bucket when it reaches zero, and clear
the abnormal tracking entry unconditionally. -/
def removePod (p : Pod) (s : PodAggState) : PodAggState :=
  let key := podAggregationKey p
  let aggregated :=
    match alookup key s.aggregated with
    | some agg =>
        let ps := agg.Pods.erase p.name
        if ps.card = 0 then aerase key s.aggregated
        else aset key { agg with Pods := ps, Count := ps.card } s.aggregated
    | none => s.aggregated
  ⟨aggregated, aerase (p.ns ++ "/" ++ p.name) s.abnormalPods⟩

/-- Embeds the pod aggregator's `cleanup`: delete every bucket whose
last-seen time is before `now - 2 * windowSize`. -/
def podCleanup (windowSize now : ℤ) (s : PodAggState) : PodAggState :=
  { s with aggregated :=
      (afilter (fun agg => !decide (agg.LastSeen < now - windowSize * 2))
        s.aggregated) }

/-- One call against the pod aggregator's mutation interface. -/
inductive PodOp : Type where
  | add (now : ℤ) (p : Pod) : PodOp
  | remove (p : Pod) : PodOp

/-- Dispatch of one `PodOp`. -/
def applyPodOp (s : PodAggState) : PodOp → PodAggState
  | PodOp.add now p => addPod now p s
  | PodOp.remove p => removePod p s

/-- A call sequence against a freshly constructed pod aggregator
(`NewPodAggregator` starts with empty maps). -/
def runPodOps (ops : List PodOp) : PodAggState :=
  ops.foldl applyPodOp ⟨[], []⟩

/-- The fields of `corev1.Event` this code reads. -/
structure KubeEvent where
  ns : String
  reason : String
  eventType : String
  kind : String
  objName : String
  count : ℤ
  firstTimestamp : ℤ
deriving DecidableEq

/-- Embeds `AggregatedEvent`: one bucket of the event aggregator. -/
structure AggregatedEvent where
  ns : String
  reason : String
  eventType : String
  kind : String
  Count : ℤ
  LastSeen : ℤ
  FirstSeen : ℤ
  UniqueObjects : Finset String
deriving DecidableEq

/-- Embeds `eventAggregationKey`: namespace/reason/kind. -/
def eventAggregationKey (e : KubeEvent) : String :=
  e.ns ++ "/" ++ e.reason ++ "/" ++ e.kind

/-- The scan inside `removeOldest`: track the key with the strictly earliest
last-seen time; the Go `oldestKey == ""` sentinel is the `none` start. -/
def findOldestAux (acc : Option (String × ℤ)) :
    List (String × AggregatedEvent) → Option (String × ℤ)
  | [] => acc
  | kb :: rest =>
      findOldestAux
        (match acc with
         | none => some (kb.1, kb.2.LastSeen)
         | some (ok, ot) =>
             if kb.2.LastSeen < ot then some (kb.1, kb.2.LastSeen)
             else some (ok, ot))
        rest

/-- Embeds `removeOldest`: delete the bucket found by the scan, if any. -/
def removeOldest (s : List (String × AggregatedEvent)) :
    List (String × AggregatedEvent) :=
  match findOldestAux none s with
  | some kt => aerase kt.1 s
  | none => s

/-- The fold-in step of `AddEvent`: grow the existing bucket (accumulate the
event count, refresh last-seen, record the involved object name when
non-empty) or create a fresh one. -/
def upsertEvent (now : ℤ) (e : KubeEvent)
    (s : List (String × AggregatedEvent)) : List (String × AggregatedEvent) :=
  aupsert (eventAggregationKey e)
    (fun agg =>
      { agg with Count := agg.Count + e.count, LastSeen := now,
                 UniqueObjects :=
                   if e.objName = "" then agg.UniqueObjects
                   else insert e.objName agg.UniqueObjects })
    { ns := e.ns, reason := e.reason, eventType := e.eventType, kind := e.kind,
      Count := e.count, LastSeen := now, FirstSeen := e.firstTimestamp,
      UniqueObjects := if e.objName = "" then ∅ else {e.objName} }
    s

/-- Embeds `AddEvent`: a nil event returns immediately; otherwise, when the
bucket map already holds at least `maxEvents` entries, the oldest bucket is
removed first (before the key of the incoming event is even computed), and
then the event is folded in. -/
def addEvent (maxEvents : ℕ) (now : ℤ) (e : Option KubeEvent)
    (s : List (String × AggregatedEvent)) : List (String × AggregatedEvent) :=
  match e with
  | none => s
  | some ev =>
      let s2 := if maxEvents ≤ s.length then removeOldest s else s
      upsertEvent now ev s2

/-- One hour in the `ℤ`-nanosecond model of `time.Duration`. -/
def nanosecondsPerHour : ℤ := 3600000000000

/-- Embeds the event aggregator's `cleanup`: delete every bucket whose
last-seen time is before `now` minus one hour.  Unlike the pod variant, this
threshold is a fixed constant and does not read the configured window size. -/
def eventCleanup (now : ℤ) (s : List (String × AggregatedEvent)) :
    List (String × AggregatedEvent) :=
  afilter (fun agg => !decide (agg.LastSeen < now - nanosecondsPerHour)) s

/-- A sequence of `AddEvent` calls (each with its observation time) against a
freshly constructed event aggregator. -/
def runEvents (maxEvents : ℕ) (calls : List (ℤ × Option KubeEvent)) :
    List (String × AggregatedEvent) :=
  calls.foldl (fun s c => addEvent maxEvents c.1 c.2 s) []

/-- The per-bucket shape every reachable pod-aggregator bucket satisfies:
its count is the member-set size or exceeds it by exactly one, and the
member set is never empty (an emptied bucket is deleted). -/
def podBucketInv (s : PodAggState) : Prop :=
  ∀ kb ∈ s.aggregated,
    (kb.2.Count = kb.2.Pods.card ∨ kb.2.Count = kb.2.Pods.card + 1) ∧
    kb.2.Pods.Nonempty

/-- A concrete pod used to exercise duplicate `AddPod` calls. -/
def dupPod : Pod :=
  ⟨"ns", "p1", "Running", []⟩

/-- Three concrete events with distinct aggregation keys, for the C10
witness. -/
def eventOf (reason : String) (ts : ℤ) : KubeEvent :=
  ⟨"ns", reason, "Warning", "Pod", "o1", 1, ts⟩

/-- Whether a map entry has a resolvable non-empty state at `valuePath`: it
must itself be a map whose `valuePath` entry is a non-empty string (this is
the K of the map_state cardinality bound). -/
def hasResolvableState (valuePath : String) (kv : String × Value) : Bool :=
  match kv.2 with
  | Value.dict em => !(goStr (alookup valuePath em) == "")
  | _ => false

/-- Whether a map entry's value is itself a map (the entries the map_gauge
loop does not skip). -/
def isDictEntry (kv : String × Value) : Bool :=
  match kv.2 with
  | Value.dict _ => true
  | _ => false

/-- The string at a field of a condition element, empty when the element is
not a map or the field is absent or not a string. -/
def condValStr (field : String) (cd : Value) : String :=
  match cd with
  | Value.dict cm => goStr (alookup field cm)
  | _ => ""

/-- A map_state metric definition over `status.components`. -/
def mapStateCfg : MetricConfig :=
  ⟨"map_state", "component_phase", "Component phase", "status.components",
    "phase", "component", "", [], none⟩

/-- A map_gauge metric definition over the map at `m`. -/
def mapGaugeCfg : MetricConfig :=
  ⟨"map_gauge", "vals", "Values", "m", "v", "key", "", [], none⟩

/-- An object whose component map has four entries: one empty map (no
state), two with states, and one whose entry is not a map at all. -/
def mapStateObj : Unstructured :=
  ⟨[("status", Value.dict [("components", Value.dict
      [("empty", Value.dict []),
       ("web", Value.dict [("phase", Value.str "Running")]),
       ("db", Value.dict [("phase", Value.str "Ready")]),
       ("raw", Value.str "nope")])])]⟩

/-- An object whose map at `m` has exactly one entry, and that entry's value
is a bare string rather than a map. -/
def nonMapEntryObj : Unstructured :=
  ⟨[("m", Value.dict [("k", Value.str "x")])]⟩

/-- A conditions metric definition over `status.conditions`. -/
def condCfg : MetricConfig :=
  ⟨"conditions", "condition", "Conditions", "status.conditions", "", "", "",
    [], none⟩

/-- A condition element of type Ready with status True. -/
def condReady : Value :=
  Value.dict [("type", Value.str "Ready"), ("status", Value.str "True"),
    ("reason", Value.str "AllGood")]

/-- A condition element of type Progressing with status False. -/
def condProgressing : Value :=
  Value.dict [("type", Value.str "Progressing"),
    ("status", Value.str "False"), ("reason", Value.str "Done")]

/-- A condition element with no type field. -/
def condNoType : Value :=
  Value.dict [("status", Value.str "True")]

/-- An object with two well-formed conditions and one lacking its type. -/
def condObj : Unstructured :=
  ⟨[("metadata", Value.dict [("name", Value.str "r1")]),
    ("status", Value.dict [("conditions",
      Value.arr [condReady, condProgressing, condNoType])])]⟩

/-- An object named `nm` whose `status.phase` is `ph`. -/
def phaseObj (nm ph : String) : Unstructured :=
  ⟨[("metadata", Value.dict [("name", Value.str nm)]),
    ("status", Value.dict [("phase", Value.str ph)])]⟩

/-- Six cached objects realizing the discovered-value distribution
Running:3, Pending:2, Failed:1 at `status.phase`. -/
def countResources : List (String × Unstructured) :=
  [("default/r1", phaseObj "r1" "Running"),
   ("default/r2", phaseObj "r2" "Running"),
   ("default/r3", phaseObj "r3" "Running"),
   ("default/r4", phaseObj "r4" "Pending"),
   ("default/r5", phaseObj "r5" "Pending"),
   ("default/r6", phaseObj "r6" "Failed")]

/-- A count metric definition over `status.phase`. -/
def countCfg : MetricConfig :=
  ⟨"count", "phase_count", "Count by phase", "status.phase", "", "", "phase",
    [], none⟩

/-- A well-formed gauge metric definition. -/
def goodMetric : MetricConfig :=
  ⟨"gauge", "good", "Good metric", "spec.replicas", "", "", "", [], none⟩

/-- A metric definition whose type is not one of the six recognized kinds. -/
def bogusMetric : MetricConfig :=
  ⟨"bogus", "bad", "Bad metric", "", "", "", "", [], none⟩

/-- A CRD configuration containing one recognized and one unrecognized
metric definition. -/
def badTypeCfg : CRDConfig :=
  ⟨"test-crd", [("name", "metadata.name")], [goodMetric, bogusMetric]⟩

/-- Concrete objects used by the C9 witness: the same resource before and
after an update. -/
def objBefore : Unstructured :=
  ⟨[("metadata", Value.dict [("name", Value.str "r1"),
      ("namespace", Value.str "default")]),
    ("spec", Value.dict [("replicas", Value.num 3)])]⟩

/-- The updated shape of `objBefore`. -/
def objAfter : Unstructured :=
  ⟨[("metadata", Value.dict [("name", Value.str "r1"),
      ("namespace", Value.str "default")]),
    ("spec", Value.dict [("replicas", Value.num 5)])]⟩

/-- A collector with an empty cache, for the C9 witness. -/
def emptyCollector : ConfigurableCollector :=
  NewConfigurableCollector ⟨"test-crd", [("name", "metadata.name")], []⟩ "test"

/-- A concrete event-aggregator bucket last touched at time 0. -/
def evBucket : AggregatedEvent :=
  ⟨"ns", "BackOff", "Warning", "Pod", 1, 0, 0, ∅⟩

/-- A concrete pod-aggregator bucket last touched at time 0. -/
def podBucket : AggregatedPod :=
  ⟨"ns", "Running", 1, 0, {"p1"}⟩

theorem alookup_aupsert_self {β : Type} (k : String) (f : β → β) (init : β)
    (l : List (String × β)) :
    alookup k (aupsert k f init l) = some ((alookup k l).elim init f) := by
  induction l with
  | nil => simp [alookup, aupsert]
  | cons kv rest ih =>
      obtain ⟨k2, v⟩ := kv
      by_cases h : k2 = k
      · simp [alookup, aupsert, h]
      · simp [alookup, aupsert, h, ih]

theorem alookup_aupsert_ne {β : Type} {k k2 : String} (f : β → β) (init : β)
    (l : List (String × β)) (h : k2 ≠ k) :
    alookup k2 (aupsert k f init l) = alookup k2 l := by
  induction l with
  | nil => simp [alookup, aupsert, Ne.symm h]
  | cons kv rest ih =>
      obtain ⟨k3, v⟩ := kv
      by_cases h3 : k3 = k
      · subst h3
        simp [alookup, aupsert, Ne.symm h]
      · simp only [aupsert, if_neg h3]
        by_cases h4 : k3 = k2 <;> simp [alookup, h4, ih]

theorem alookup_aset_self {β : Type} (k : String) (v : β)
    (l : List (String × β)) : alookup k (aset k v l) = some v := by
  rw [aset, alookup_aupsert_self]
  cases alookup k l <;> rfl

theorem alookup_aset_ne {β : Type} {k k2 : String} (v : β)
    (l : List (String × β)) (h : k2 ≠ k) :
    alookup k2 (aset k v l) = alookup k2 l :=
  alookup_aupsert_ne _ _ l h

theorem alookup_aerase_self {β : Type} (k : String) (l : List (String × β)) :
    alookup k (aerase k l) = none := by
  induction l with
  | nil => rfl
  | cons kv rest ih =>
      obtain ⟨k2, v⟩ := kv
      by_cases h : k2 = k
      · simpa [aerase, h] using ih
      · simpa [aerase, alookup, h] using ih

theorem alookup_aerase_ne {β : Type} {k k2 : String} (l : List (String × β))
    (h : k2 ≠ k) : alookup k2 (aerase k l) = alookup k2 l := by
  induction l with
  | nil => rfl
  | cons kv rest ih =>
      obtain ⟨k3, v⟩ := kv
      by_cases h3 : k3 = k
      · subst h3
        simpa [aerase, alookup, Ne.symm h] using ih
      · by_cases h4 : k3 = k2 <;> simp [aerase, alookup, h3, h4, h, ih]

theorem mem_aupsert {β : Type} {k : String} {f : β → β} {init : β}
    {l : List (String × β)} :
    ∀ kv ∈ aupsert k f init l,
      kv ∈ l ∨ kv.2 = init ∨ ∃ kv2 ∈ l, kv.2 = f kv2.2 := by
  induction l with
  | nil =>
      intro kv h
      simp [aupsert] at h
      subst h
      simp
  | cons kv0 rest ih =>
      intro kv h
      obtain ⟨k2, v⟩ := kv0
      by_cases h2 : k2 = k
      · simp [aupsert, h2] at h
        rcases h with h | h
        · subst h
          exact Or.inr (Or.inr ⟨(k2, v), by simp⟩)
        · exact Or.inl (by simp [h])
      · simp [aupsert, h2] at h
        rcases h with h | h
        · exact Or.inl (by simp [h])
        · rcases ih kv h with h3 | h3 | ⟨kv2, h4, h5⟩
          · exact Or.inl (by simp [h3])
          · exact Or.inr (Or.inl h3)
          · exact Or.inr (Or.inr ⟨kv2, by simp [h4], h5⟩)

theorem mem_aset {β : Type} {k : String} {v : β} {l : List (String × β)} :
    ∀ kv ∈ aset k v l, kv.2 = v ∨ kv ∈ l := by
  intro kv h
  rcases mem_aupsert kv h with h2 | h2 | ⟨_, _, h3⟩
  · exact Or.inr h2
  · exact Or.inl h2
  · exact Or.inl h3

theorem mem_of_aerase {β : Type} {k : String} {l : List (String × β)} :
    ∀ kv ∈ aerase k l, kv ∈ l := by
  induction l with
  | nil => intro kv h; exact absurd h (by simp [aerase])
  | cons kv0 rest ih =>
      intro kv h
      by_cases h2 : kv0.1 = k
      · simp [aerase, h2] at h
        exact List.mem_cons_of_mem _ (ih kv h)
      · simp [aerase, h2] at h
        rcases h with h | h
        · simp [h]
        · exact List.mem_cons_of_mem _ (ih kv h)

theorem mem_of_afilter {β : Type} {keep : β → Bool} {l : List (String × β)} :
    ∀ kv ∈ afilter keep l, kv ∈ l ∧ keep kv.2 = true := by
  induction l with
  | nil => intro kv h; exact absurd h (by simp [afilter])
  | cons kv0 rest ih =>
      intro kv h
      by_cases h2 : keep kv0.2
      · simp [afilter, h2] at h
        rcases h with h | h
        · subst h
          exact ⟨by simp, h2⟩
        · exact ⟨List.mem_cons_of_mem _ (ih kv h).1, (ih kv h).2⟩
      · simp [afilter, h2] at h
        exact ⟨List.mem_cons_of_mem _ (ih kv h).1, (ih kv h).2⟩

theorem mem_of_alookup_eq_some {β : Type} {k : String} {v : β}
    {l : List (String × β)} (h : alookup k l = some v) : (k, v) ∈ l := by
  induction l with
  | nil => simp [alookup] at h
  | cons kv rest ih =>
      obtain ⟨k2, v2⟩ := kv
      by_cases h2 : k2 = k
      · subst h2
        simp [alookup] at h
        simp [h]
      · simp [alookup, h2] at h
        simp [ih h]

theorem alookup_afilter_of_nodup {β : Type} {keep : β → Bool} {k : String}
    {v : β} {l : List (String × β)} (hnd : (l.map Prod.fst).Nodup)
    (h : alookup k l = some v) :
    alookup k (afilter keep l) = if keep v then some v else none := by
  induction l with
  | nil => simp [alookup] at h
  | cons kv rest ih =>
      obtain ⟨k2, v2⟩ := kv
      simp only [List.map_cons, List.nodup_cons] at hnd
      by_cases h2 : k2 = k
      · subst h2
        have hv : v2 = v := by simpa [alookup] using h
        have hnone : alookup k2 (afilter keep rest) = none := by
          rcases h3 : alookup k2 (afilter keep rest) with _ | v3
          · rfl
          · exact absurd (List.mem_map_of_mem Prod.fst
              (mem_of_afilter _ (mem_of_alookup_eq_some h3)).1) hnd.1
        by_cases hk : keep v <;> simp [afilter, alookup, hk, hnone, hv]
      · simp only [alookup, if_neg h2] at h
        by_cases hk : keep v2 <;>
          simp [afilter, alookup, hk, h2, ih hnd.2 h]

/-- C8: field extraction never fails: an empty path or any failed navigation
(absent segment, non-map intermediate) yields the zero value of the requested
type, and numeric conversion maps numbers to themselves, booleans to 1/0 and
strings through a best-effort parse that leaves 0 behind on failure. -/
theorem c8_fail_soft_extraction :
    (∀ (o : Unstructured) (path : String),
        path = "" ∨ nestedField (Value.dict o.object) (splitPath path) = none →
          extractFieldString o path = "" ∧ extractFieldFloat o path = 0 ∧
          extractFieldMap o path = none ∧ extractFieldSlice o path = none) ∧
    (∀ (v : Value) (seg : String) (rest : List String),
        (∀ es, v ≠ Value.dict es) → nestedField v (seg :: rest) = none) ∧
    (∀ (es : List (String × Value)) (seg : String) (rest : List String),
        alookup seg es = none → nestedField (Value.dict es) (seg :: rest) = none) ∧
    (∀ q : ℚ, toFloat64 (Value.num q) = q) ∧
    toFloat64 (Value.bool true) = 1 ∧ toFloat64 (Value.bool false) = 0 ∧
    (∀ s, parseGoFloat? s = none → toFloat64 (Value.str s) = 0) ∧
    (∀ s q, parseGoFloat? s = some q → toFloat64 (Value.str s) = q) := by
  refine ⟨?_, ?_, ?_, fun q => rfl, rfl, rfl, ?_, ?_⟩
  · intro o path h
    rcases h with h | h
    · subst h
      simp [extractFieldString, extractFieldFloat, extractFieldMap,
        extractFieldSlice]
    · by_cases hp : path = "" <;>
        simp [extractFieldString, extractFieldFloat, extractFieldMap,
          extractFieldSlice, hp, h, goStr]
  · intro v seg rest h
    cases v <;> simp_all [nestedField]
  · intro es seg rest h
    simp [nestedField, h]
  · intro s h
    simp [toFloat64, parseGoFloat, h]
  · intro s q h
    simp [toFloat64, parseGoFloat, h]

/-- Witness for C8 at concrete inputs. -/
theorem c8_fail_soft_extraction_witness :
    extractFieldString ⟨[("a", Value.str "x")]⟩ "" = "" ∧
    extractFieldFloat ⟨[("a", Value.str "x")]⟩ "missing.path" = 0 ∧
    toFloat64 (Value.str "abc") = 0 ∧
    toFloat64 (Value.str "7") = 7 := by
  have h := c8_fail_soft_extraction
  refine ⟨(h.1 ⟨[("a", Value.str "x")]⟩ "" (Or.inl rfl)).1,
    (h.1 ⟨[("a", Value.str "x")]⟩ "missing.path" (Or.inr rfl)).2.1,
    h.2.2.2.2.2.2.1 "abc" (by decide),
    h.2.2.2.2.2.2.2 "7" 7 (by decide)⟩

/-- C9: for objects sharing the same namespace/name key, `handleUpdate` and
`handleDelete`-then-`handleAdd` produce the same final cache state, and the
update leaves the key bound to the new object (it never removes the key). -/
theorem c9_update_replace :
    ∀ (c : ConfigurableCollector) (oldO newO : Unstructured),
      resourceKey oldO = resourceKey newO →
        (∀ k, alookup k (handleUpdate c oldO newO).resources =
            alookup k (handleAdd (handleDelete c oldO) newO).resources) ∧
        alookup (resourceKey newO) (handleUpdate c oldO newO).resources =
          some newO := by
  intro c oldO newO hk
  refine ⟨?_, ?_⟩
  · intro k
    by_cases h : k = resourceKey newO
    · subst h
      simp [handleUpdate, handleAdd, handleDelete, alookup_aset_self]
    · have h2 : k ≠ resourceKey oldO := by rw [hk]; exact h
      simp only [handleUpdate, handleAdd, handleDelete]
      rw [alookup_aset_ne _ _ h, alookup_aset_ne _ _ h, alookup_aerase_ne _ h2]
  · simp [handleUpdate, handleAdd, alookup_aset_self]

/-- Witness for C9 at concrete inputs. -/
theorem c9_update_replace_witness :
    alookup (resourceKey objAfter)
      (handleUpdate emptyCollector objBefore objAfter).resources =
        some objAfter ∧
    alookup "default/r1"
      (handleUpdate emptyCollector objBefore objAfter).resources =
      alookup "default/r1"
        (handleAdd (handleDelete emptyCollector objBefore) objAfter).resources := by
  have h := c9_update_replace emptyCollector objBefore objAfter rfl
  exact ⟨h.2, h.1 "default/r1"⟩

/-- Counterexample to C2 as stated: with windowSize T = 10 minutes
(600000000000 ns) the claim puts the eviction boundary of the event variant
at 2T, so a bucket last touched at 0 must be absent from a cleanup at 2.5T;
the event-variant cleanup keeps it, because its threshold is a fixed hour
rather than `2 × windowSize`. -/
theorem c2_counterexample :
    (0 : ℤ) + 2 * 600000000000 < 1500000000000 ∧
    eventCleanup 1500000000000 [("k", evBucket)] = [("k", evBucket)] := by
  exact ⟨by decide, rfl⟩

/-- C2 amended: the pod-variant cleanup keeps a bucket exactly while the
cleanup time is at most last-seen plus twice the window size, and deletes it
at any later cleanup; the event-variant cleanup uses a fixed one-hour
retention independent of the window size, with the same boundary shape. -/
theorem c2_cleanup_eviction :
    ∀ (now : ℤ),
      (∀ (windowSize : ℤ) (s : PodAggState) (k : String) (b : AggregatedPod),
        (s.aggregated.map Prod.fst).Nodup → alookup k s.aggregated = some b →
          (now ≤ b.LastSeen + 2 * windowSize →
            alookup k (podCleanup windowSize now s).aggregated = some b) ∧
          (b.LastSeen + 2 * windowSize < now →
            alookup k (podCleanup windowSize now s).aggregated = none)) ∧
      (∀ (s : List (String × AggregatedEvent)) (k : String)
          (b : AggregatedEvent),
        (s.map Prod.fst).Nodup → alookup k s = some b →
          (now ≤ b.LastSeen + nanosecondsPerHour →
            alookup k (eventCleanup now s) = some b) ∧
          (b.LastSeen + nanosecondsPerHour < now →
            alookup k (eventCleanup now s) = none)) := by
  intro now
  constructor
  · intro W s k b hnd hl
    have h := @alookup_afilter_of_nodup _
      (fun agg => !decide (agg.LastSeen < now - W * 2)) _ _ _ hnd hl
    constructor
    · intro hle
      have h2 : ¬ (b.LastSeen < now - W * 2) := by linarith
      simp [podCleanup, h, h2]
    · intro hlt
      have h2 : b.LastSeen < now - W * 2 := by linarith
      simp [podCleanup, h, h2]
  · intro s k b hnd hl
    have h := @alookup_afilter_of_nodup _
      (fun agg => !decide (agg.LastSeen < now - nanosecondsPerHour)) _ _ _
      hnd hl
    constructor
    · intro hle
      have h2 : ¬ (b.LastSeen < now - nanosecondsPerHour) := by linarith
      simp [eventCleanup, h, h2]
    · intro hlt
      have h2 : b.LastSeen < now - nanosecondsPerHour := by linarith
      simp [eventCleanup, h, h2]

/-- Witness for the amended C2 at concrete inputs: the pod bucket survives a
cleanup inside 2 windows, the event bucket is gone after more than an hour. -/
theorem c2_cleanup_eviction_witness :
    alookup "ns/Running"
      (podCleanup 10 15 ⟨[("ns/Running", podBucket)], []⟩).aggregated =
        some podBucket ∧
    alookup "k" (eventCleanup (2 * nanosecondsPerHour) [("k", evBucket)]) =
      none := by
  refine ⟨((c2_cleanup_eviction 15).1 10 ⟨[("ns/Running", podBucket)], []⟩
      "ns/Running" podBucket (by decide) (by decide)).1 (by decide),
    ((c2_cleanup_eviction (2 * nanosecondsPerHour)).2 [("k", evBucket)] "k"
      evBucket (by decide) (by decide)).2 (by decide)⟩

/-- Counterexample to C3 as stated: adding the same pod to the same bucket
twice leaves the bucket's count at 2 while its member set holds a single
identity, because `AddPod` computes the new count as the member-set size
plus one before inserting the pod name. -/
theorem c3_counterexample :
    (alookup "ns/Running"
        (runPodOps [PodOp.add 0 dupPod, PodOp.add 1 dupPod]).aggregated).map
      (fun b => (b.Count, b.Pods.card)) = some (2, 1) := by
  decide

/-- Every single aggregator call preserves `podBucketInv`. -/
theorem podBucketInv_step (s : PodAggState) (op : PodOp)
    (hs : podBucketInv s) : podBucketInv (applyPodOp s op) := by
  cases op with
  | add now p =>
      intro kb hkb
      rcases mem_aupsert kb hkb with h | h | ⟨kv2, hkv2, h⟩
      · exact hs kb h
      · rw [h]
        refine ⟨Or.inl ?_, ?_⟩
        · simp
        · simp
      · rw [h]
        obtain ⟨hcnt, hne⟩ := hs kv2 hkv2
        by_cases hp : p.name ∈ kv2.2.Pods
        · refine ⟨Or.inr ?_, ?_⟩
          · simp [Finset.insert_eq_self.mpr hp]
          · simp [Finset.insert_nonempty]
        · refine ⟨Or.inl ?_, ?_⟩
          · simp [Finset.card_insert_of_not_mem hp]
          · simp [Finset.insert_nonempty]
  | remove p =>
      intro kb hkb
      simp only [applyPodOp, removePod] at hkb
      rcases hl : alookup (podAggregationKey p) s.aggregated with _ | agg
      · rw [hl] at hkb
        exact hs kb hkb
      · rw [hl] at hkb
        dsimp only at hkb
        by_cases hz : (agg.Pods.erase p.name).card = 0
        · rw [if_pos hz] at hkb
          exact hs kb (mem_of_aerase kb hkb)
        · rw [if_neg hz] at hkb
          rcases mem_aset kb hkb with h | h
          · rw [h]
            refine ⟨Or.inl rfl, ?_⟩
            exact Finset.card_pos.mp (Nat.pos_of_ne_zero hz)
          · exact hs kb h

/-- C3 amended: for every sequence of `AddPod`/`RemovePod` calls, every
bucket still present has its count equal to the number of distinct member
identities or exceeding it by exactly one (the excess arises exactly from an
`AddPod` whose pod was already a member), and no bucket with an empty member
set is ever retained: a bucket emptied by `RemovePod` is deleted. -/
theorem c3_bucket_count_invariant :
    ∀ (ops : List PodOp), ∀ kb ∈ (runPodOps ops).aggregated,
      (kb.2.Count = kb.2.Pods.card ∨ kb.2.Count = kb.2.Pods.card + 1) ∧
      kb.2.Pods.Nonempty := by
  intro ops
  have h : ∀ (s : PodAggState), podBucketInv s →
      podBucketInv (ops.foldl applyPodOp s) := by
    induction ops with
    | nil => intro s hs; exact hs
    | cons op rest ih => intro s hs; exact ih _ (podBucketInv_step s op hs)
  exact h ⟨[], []⟩ (by intro kb hkb; simp at hkb)

/-- Witness for the amended C3 at a concrete input. -/
theorem c3_bucket_count_invariant_witness :
    ((AggregatedPod.mk "ns" "Running" 1 0 {"p1"}).Count =
        (AggregatedPod.mk "ns" "Running" 1 0 {"p1"}).Pods.card ∨
      (AggregatedPod.mk "ns" "Running" 1 0 {"p1"}).Count =
        (AggregatedPod.mk "ns" "Running" 1 0 {"p1"}).Pods.card + 1) ∧
    (AggregatedPod.mk "ns" "Running" 1 0 {"p1"}).Pods.Nonempty :=
  c3_bucket_count_invariant [PodOp.add 0 dupPod]
    ("ns/Running", AggregatedPod.mk "ns" "Running" 1 0 {"p1"}) (by decide)

theorem length_aerase_le {β : Type} (k : String) (l : List (String × β)) :
    (aerase k l).length ≤ l.length := by
  induction l with
  | nil => simp [aerase]
  | cons kv rest ih =>
      by_cases h : kv.1 = k <;> simp [aerase, h] <;> omega

theorem length_aerase_lt {β : Type} {k : String} {l : List (String × β)}
    (h : ∃ kb ∈ l, kb.1 = k) : (aerase k l).length < l.length := by
  induction l with
  | nil => simp at h
  | cons kv rest ih =>
      by_cases h2 : kv.1 = k
      · have := length_aerase_le k rest
        simp [aerase, h2]
        omega
      · obtain ⟨kb, hkb, hk⟩ := h
        rcases List.mem_cons.mp hkb with he | hm
        · exact absurd (he ▸ hk) h2
        · have := ih ⟨kb, hm, hk⟩
          simp [aerase, h2]
          omega

theorem length_aupsert_le {β : Type} (k : String) (f : β → β) (init : β)
    (l : List (String × β)) : (aupsert k f init l).length ≤ l.length + 1 := by
  induction l with
  | nil => simp [aupsert]
  | cons kv rest ih =>
      obtain ⟨k2, v⟩ := kv
      by_cases h : k2 = k <;> simp [aupsert, h] <;> omega

theorem length_upsertEvent_le (now : ℤ) (ev : KubeEvent)
    (l : List (String × AggregatedEvent)) :
    (upsertEvent now ev l).length ≤ l.length + 1 :=
  length_aupsert_le _ _ _ l

theorem findOldestAux_min :
    ∀ (l : List (String × AggregatedEvent)) (acc : Option (String × ℤ))
      (kt : String × ℤ),
      findOldestAux acc l = some kt →
        (acc = some kt ∨ ∃ kb ∈ l, kb.1 = kt.1 ∧ kb.2.LastSeen = kt.2) ∧
        (∀ kb ∈ l, kt.2 ≤ kb.2.LastSeen) ∧
        (∀ k0 t0, acc = some (k0, t0) → kt.2 ≤ t0) := by
  intro l
  induction l with
  | nil =>
      intro acc kt h
      rw [findOldestAux] at h
      refine ⟨Or.inl h, by simp, ?_⟩
      intro k0 t0 h0
      rw [h0] at h
      injection h with h
      rw [← h]
  | cons kb rest ih =>
      intro acc kt h
      cases acc with
      | none =>
          have h2 := ih (some (kb.1, kb.2.LastSeen)) kt h
          refine ⟨?_, ?_, ?_⟩
          · rcases h2.1 with he | ⟨kb2, hkb2, hp⟩
            · right
              injection he with he
              exact ⟨kb, by simp, by rw [← he], by rw [← he]⟩
            · exact Or.inr ⟨kb2, List.mem_cons_of_mem _ hkb2, hp⟩
          · intro kb2 hkb2
            rcases List.mem_cons.mp hkb2 with he | hm
            · rw [he]
              exact h2.2.2 kb.1 kb.2.LastSeen rfl
            · exact h2.2.1 kb2 hm
          · intro k0 t0 h0
            exact absurd h0 (by simp)
      | some p0 =>
          obtain ⟨k0c, t0c⟩ := p0
          have hc : findOldestAux
              (if kb.2.LastSeen < t0c then some (kb.1, kb.2.LastSeen)
               else some (k0c, t0c)) rest = some kt := h
          by_cases hlt : kb.2.LastSeen < t0c
          · rw [if_pos hlt] at hc
            have h2 := ih (some (kb.1, kb.2.LastSeen)) kt hc
            refine ⟨?_, ?_, ?_⟩
            · rcases h2.1 with he | ⟨kb2, hkb2, hp⟩
              · right
                injection he with he
                exact ⟨kb, by simp, by rw [← he], by rw [← he]⟩
              · exact Or.inr ⟨kb2, List.mem_cons_of_mem _ hkb2, hp⟩
            · intro kb2 hkb2
              rcases List.mem_cons.mp hkb2 with he | hm
              · rw [he]
                exact h2.2.2 kb.1 kb.2.LastSeen rfl
              · exact h2.2.1 kb2 hm
            · intro k0 t0 h0
              injection h0 with h0
              have hle : kt.2 ≤ kb.2.LastSeen := h2.2.2 kb.1 kb.2.LastSeen rfl
              have : t0c = (Prod.mk k0 t0).2 := by rw [← h0]
              simp at this
              omega
          · rw [if_neg hlt] at hc
            have h2 := ih (some (k0c, t0c)) kt hc
            have hbnd : kt.2 ≤ t0c := h2.2.2 k0c t0c rfl
            refine ⟨?_, ?_, ?_⟩
            · rcases h2.1 with he | ⟨kb2, hkb2, hp⟩
              · exact Or.inl he
              · exact Or.inr ⟨kb2, List.mem_cons_of_mem _ hkb2, hp⟩
            · intro kb2 hkb2
              rcases List.mem_cons.mp hkb2 with he | hm
              · rw [he]
                omega
              · exact h2.2.1 kb2 hm
            · intro k0 t0 h0
              injection h0 with h0
              have : t0c = (Prod.mk k0 t0).2 := by rw [← h0]
              simp at this
              omega

theorem findOldestAux_ne_none :
    ∀ (l : List (String × AggregatedEvent)) (acc : Option (String × ℤ)),
      acc ≠ none ∨ l ≠ [] → findOldestAux acc l ≠ none := by
  intro l
  induction l with
  | nil =>
      intro acc h
      rcases h with h | h
      · simpa [findOldestAux] using h
      · exact absurd rfl h
  | cons kb rest ih =>
      intro acc h
      cases acc with
      | none => exact ih (some (kb.1, kb.2.LastSeen)) (Or.inl (by simp))
      | some p0 =>
          obtain ⟨k0c, t0c⟩ := p0
          show findOldestAux
              (if kb.2.LastSeen < t0c then some (kb.1, kb.2.LastSeen)
               else some (k0c, t0c)) rest ≠ none
          by_cases hlt : kb.2.LastSeen < t0c
          · rw [if_pos hlt]
            exact ih _ (Or.inl (by simp))
          · rw [if_neg hlt]
            exact ih _ (Or.inl (by simp))

theorem removeOldest_spec :
    ∀ (s : List (String × AggregatedEvent)), s ≠ [] →
      ∃ k t, removeOldest s = aerase k s ∧
        (∃ kb ∈ s, kb.1 = k ∧ kb.2.LastSeen = t) ∧
        (∀ kb ∈ s, t ≤ kb.2.LastSeen) := by
  intro s hne
  rcases h : findOldestAux none s with _ | kt
  · exact absurd h (findOldestAux_ne_none s none (Or.inr hne))
  · obtain ⟨k, t⟩ := kt
    have h2 := findOldestAux_min s none (k, t) h
    rcases h2.1 with he | hmem
    · exact absurd he (by simp)
    · exact ⟨k, t, by rw [removeOldest, h], hmem, h2.2.1⟩

/-- C10: with maxEvents at least 1, every `AddEvent` keeps the bucket count
at or below maxEvents (and so does any call sequence from empty); when the
map is already full the call first removes one bucket whose last-seen time
is minimal — before the incoming event is folded in, even when its key
matches an existing bucket. -/
theorem c10_capacity_bound :
    ∀ (maxEvents : ℕ), 1 ≤ maxEvents →
      (∀ (s : List (String × AggregatedEvent)) (now : ℤ) (e : Option KubeEvent),
        s.length ≤ maxEvents → (addEvent maxEvents now e s).length ≤ maxEvents) ∧
      (∀ calls : List (ℤ × Option KubeEvent),
        (runEvents maxEvents calls).length ≤ maxEvents) ∧
      (∀ (s : List (String × AggregatedEvent)) (now : ℤ) (ev : KubeEvent),
        maxEvents ≤ s.length →
          addEvent maxEvents now (some ev) s =
            upsertEvent now ev (removeOldest s)) ∧
      (∀ s : List (String × AggregatedEvent), s ≠ [] →
        ∃ k t, removeOldest s = aerase k s ∧
          (∃ kb ∈ s, kb.1 = k ∧ kb.2.LastSeen = t) ∧
          (∀ kb ∈ s, t ≤ kb.2.LastSeen)) := by
  intro maxEvents hmax
  have hstep : ∀ (s : List (String × AggregatedEvent)) (now : ℤ)
      (e : Option KubeEvent),
      s.length ≤ maxEvents → (addEvent maxEvents now e s).length ≤ maxEvents := by
    intro s now e hs
    cases e with
    | none => simpa [addEvent] using hs
    | some ev =>
        simp only [addEvent]
        by_cases hfull : maxEvents ≤ s.length
        · rw [if_pos hfull]
          have hne : s ≠ [] := by
            intro h0
            rw [h0] at hfull
            simp at hfull
            omega
          obtain ⟨k, t, hro, ⟨kb, hkb, hk, _⟩, _⟩ := removeOldest_spec s hne
          have hlt : (removeOldest s).length < s.length := by
            rw [hro]
            exact length_aerase_lt ⟨kb, hkb, hk⟩
          have hup := length_upsertEvent_le now ev (removeOldest s)
          omega
        · rw [if_neg hfull]
          have hup := length_upsertEvent_le now ev s
          omega
  refine ⟨hstep, ?_, ?_, removeOldest_spec⟩
  · intro calls
    have h : ∀ (s : List (String × AggregatedEvent)), s.length ≤ maxEvents →
        (calls.foldl (fun s c => addEvent maxEvents c.1 c.2 s) s).length ≤
          maxEvents := by
      induction calls with
      | nil => intro s hs; exact hs
      | cons c rest ih => intro s hs; exact ih _ (hstep s c.1 c.2 hs)
    exact h [] (by simp)
  · intro s now ev hfull
    simp [addEvent, hfull]

/-- Witness for C10 at concrete inputs. -/
theorem c10_capacity_bound_witness :
    (runEvents 2 [(0, some (eventOf "A" 0)), (1, some (eventOf "B" 0)),
      (2, some (eventOf "C" 0))]).length ≤ 2 ∧
    (∃ k t, removeOldest [("k1", evBucket)] = aerase k [("k1", evBucket)] ∧
      (∃ kb ∈ [("k1", evBucket)], kb.1 = k ∧ kb.2.LastSeen = t) ∧
      (∀ kb ∈ [("k1", evBucket)], t ≤ kb.2.LastSeen)) := by
  have h := c10_capacity_bound 2 (by decide)
  exact ⟨h.2.1 _, h.2.2.2 [("k1", evBucket)] (by simp)⟩

theorem length_filterMap_countP {α β : Type} (f : α → Option β) (l : List α) :
    (l.filterMap f).length = l.countP (fun a => (f a).isSome) := by
  induction l with
  | nil => rfl
  | cons a rest ih =>
      cases h : f a <;>
        simp [List.filterMap_cons, h, List.countP_cons, ih]

theorem mapStateSample_isSome (vp : String) (common : List String)
    (kv : String × Value) :
    (mapStateSample vp common kv).isSome = hasResolvableState vp kv := by
  obtain ⟨k, v⟩ := kv
  cases v <;> try rfl
  case dict em =>
    by_cases h : goStr (alookup vp em) = "" <;>
      simp [mapStateSample, hasResolvableState, h]

theorem mapGaugeSample_isSome (vp : String) (common : List String)
    (kv : String × Value) :
    (mapGaugeSample vp common kv).isSome = isDictEntry kv := by
  obtain ⟨k, v⟩ := kv
  cases v <;> rfl

theorem conditionSample_isSome (tf sf rf : String) (common : List String)
    (cd : Value) :
    (conditionSample tf sf rf common cd).isSome = !(condValStr tf cd == "") := by
  cases cd <;> try rfl
  case dict cm =>
    by_cases h : goStr (alookup tf cm) = "" <;>
      simp [conditionSample, condValStr, h]

/-- C5: the map_state strategy emits exactly one tuple per map entry with a
resolvable non-empty state (K tuples, never N), each tuple has constant
value 1 and is labelled with the common labels, the map key and the current
state; entries without a resolvable state yield nothing. -/
theorem c5_map_state_cardinality :
    ∀ (o : Unstructured) (cfg : MetricConfig) (common : List String),
      (collectMapStateMetric o cfg common).length =
        ((extractFieldMap o cfg.path).getD []).countP
          (hasResolvableState cfg.valuePath) ∧
      (∀ s2 ∈ collectMapStateMetric o cfg common,
        s2.value = 1 ∧
        ∃ kv ∈ (extractFieldMap o cfg.path).getD [], ∃ em,
          kv.2 = Value.dict em ∧ goStr (alookup cfg.valuePath em) ≠ "" ∧
          s2.labelValues = common ++ [kv.1, goStr (alookup cfg.valuePath em)]) ∧
      (∀ kv ∈ (extractFieldMap o cfg.path).getD [],
        hasResolvableState cfg.valuePath kv = false →
          mapStateSample cfg.valuePath common kv = none) := by
  intro o cfg common
  refine ⟨?_, ?_, ?_⟩
  · rw [collectMapStateMetric, length_filterMap_countP]
    exact List.countP_congr
      (fun kv _ => by rw [mapStateSample_isSome cfg.valuePath common kv])
  · intro s2 hs2
    rw [collectMapStateMetric] at hs2
    obtain ⟨kv, hkv, heq⟩ := List.mem_filterMap.mp hs2
    obtain ⟨k, v⟩ := kv
    cases v with
    | dict em =>
        by_cases h : goStr (alookup cfg.valuePath em) = ""
        · simp [mapStateSample, h] at heq
        · simp only [mapStateSample, if_neg h] at heq
          injection heq with heq
          subst heq
          exact ⟨rfl, (k, Value.dict em), hkv, em, rfl, h, rfl⟩
    | null => simp [mapStateSample] at heq
    | bool b => simp [mapStateSample] at heq
    | num q => simp [mapStateSample] at heq
    | str s => simp [mapStateSample] at heq
    | arr es => simp [mapStateSample] at heq
  · intro kv hkv hfalse
    obtain ⟨k, v⟩ := kv
    cases v <;> try rfl
    case dict em =>
      have h2 : goStr (alookup cfg.valuePath em) = "" := by
        simpa [hasResolvableState] using hfalse
      simp [mapStateSample, h2]

/-- Witness for C5 at a concrete object: four map entries, of which exactly
two have a resolvable state, give exactly two tuples; the stateless entry
yields nothing. -/
theorem c5_map_state_cardinality_witness :
    (collectMapStateMetric mapStateObj mapStateCfg ["r1"]).length = 2 ∧
    mapStateSample mapStateCfg.valuePath ["r1"] ("empty", Value.dict []) =
      none := by
  have h := c5_map_state_cardinality mapStateObj mapStateCfg ["r1"]
  refine ⟨h.1.trans (by decide), ?_⟩
  exact h.2.2 ("empty", Value.dict []) (List.Mem.head _) (by decide)

/-- Counterexample to C6 as stated: an object whose map at the configured
path has one entry, whose value is a bare string, yields zero tuples rather
than the claimed one-per-entry, because the map_gauge loop skips entries
that are not themselves maps. -/
theorem c6_counterexample :
    ((extractFieldMap nonMapEntryObj "m").getD []).length = 1 ∧
    collectMapGaugeMetric nonMapEntryObj mapGaugeCfg [] = [] := by
  exact ⟨rfl, rfl⟩

/-- C6 amended: the map_gauge strategy emits exactly one tuple per map entry
whose value is itself a map (non-map entries are skipped), labelled with the
common labels plus the map key, valued by the numeric value at `valuePath`
within the entry with 0 as the default when `valuePath` is absent. -/
theorem c6_map_gauge_per_entry :
    ∀ (o : Unstructured) (cfg : MetricConfig) (common : List String),
      (collectMapGaugeMetric o cfg common).length =
        ((extractFieldMap o cfg.path).getD []).countP isDictEntry ∧
      (∀ kv ∈ (extractFieldMap o cfg.path).getD [], ∀ em,
        kv.2 = Value.dict em →
          MetricSample.mk (common ++ [kv.1]) (mapGaugeValue cfg.valuePath em) ∈
            collectMapGaugeMetric o cfg common) ∧
      (∀ s2 ∈ collectMapGaugeMetric o cfg common,
        ∃ kv ∈ (extractFieldMap o cfg.path).getD [], ∃ em,
          kv.2 = Value.dict em ∧
          s2 = MetricSample.mk (common ++ [kv.1])
            (mapGaugeValue cfg.valuePath em)) ∧
      (∀ kv ∈ (extractFieldMap o cfg.path).getD [], isDictEntry kv = false →
        mapGaugeSample cfg.valuePath common kv = none) := by
  intro o cfg common
  refine ⟨?_, ?_, ?_, ?_⟩
  · rw [collectMapGaugeMetric, length_filterMap_countP]
    exact List.countP_congr
      (fun kv _ => by rw [mapGaugeSample_isSome cfg.valuePath common kv])
  · intro kv hkv em hem
    rw [collectMapGaugeMetric]
    refine List.mem_filterMap.mpr ⟨kv, hkv, ?_⟩
    obtain ⟨k, v⟩ := kv
    simp only at hem
    rw [hem]
    rfl
  · intro s2 hs2
    rw [collectMapGaugeMetric] at hs2
    obtain ⟨kv, hkv, heq⟩ := List.mem_filterMap.mp hs2
    obtain ⟨k, v⟩ := kv
    cases v with
    | dict em =>
        refine ⟨(k, Value.dict em), hkv, em, rfl, ?_⟩
        simp only [mapGaugeSample] at heq
        injection heq with heq
        rw [heq]
    | null => simp [mapGaugeSample] at heq
    | bool b => simp [mapGaugeSample] at heq
    | num q => simp [mapGaugeSample] at heq
    | str s => simp [mapGaugeSample] at heq
    | arr es => simp [mapGaugeSample] at heq
  · intro kv hkv hfalse
    obtain ⟨k, v⟩ := kv
    cases v <;> first | rfl | simp [isDictEntry] at hfalse

/-- Witness for the amended C6 at a concrete input: the string-valued entry
is skipped and the tuple count matches the number of map-valued entries. -/
theorem c6_map_gauge_per_entry_witness :
    (collectMapGaugeMetric nonMapEntryObj mapGaugeCfg []).length = 0 ∧
    mapGaugeSample mapGaugeCfg.valuePath [] ("k", Value.str "x") = none := by
  have h := c6_map_gauge_per_entry nonMapEntryObj mapGaugeCfg []
  refine ⟨h.1.trans (by decide), ?_⟩
  exact h.2.2.2 ("k", Value.str "x") (List.Mem.head _) (by decide)

/-- C7: a condition element whose type field is empty or missing (or which
is not a map) emits nothing; every other element emits exactly one tuple,
labelled type/status/reason, valued 1 exactly when the status string
case-insensitively equals true and 0 for any other status, the empty string
included. -/
theorem c7_conditions_polarity :
    ∀ (o : Unstructured) (cfg : MetricConfig) (common : List String)
      (tf sf rf : String), condFieldNames cfg = (tf, sf, rf) →
      (collectConditionsMetric o cfg common).length =
        ((extractFieldSlice o cfg.path).getD []).countP
          (fun cd => !(condValStr tf cd == "")) ∧
      (∀ cd ∈ (extractFieldSlice o cfg.path).getD [],
        condValStr tf cd = "" → conditionSample tf sf rf common cd = none) ∧
      (∀ cd ∈ (extractFieldSlice o cfg.path).getD [],
        condValStr tf cd ≠ "" →
          conditionSample tf sf rf common cd =
            some (MetricSample.mk
              (common ++ [condValStr tf cd, condValStr sf cd, condValStr rf cd])
              (if eqFold (condValStr sf cd) "true" then 1 else 0)) ∧
          MetricSample.mk
              (common ++ [condValStr tf cd, condValStr sf cd, condValStr rf cd])
              (if eqFold (condValStr sf cd) "true" then 1 else 0) ∈
            collectConditionsMetric o cfg common) := by
  intro o cfg common tf sf rf hfields
  have hcoll : collectConditionsMetric o cfg common =
      ((extractFieldSlice o cfg.path).getD []).filterMap
        (conditionSample tf sf rf common) := by
    rw [collectConditionsMetric, hfields]
  refine ⟨?_, ?_, ?_⟩
  · rw [hcoll, length_filterMap_countP]
    exact List.countP_congr
      (fun cd _ => by rw [conditionSample_isSome tf sf rf common cd])
  · intro cd hcd htype
    cases cd <;> try rfl
    case dict cm =>
      simp only [condValStr] at htype
      simp [conditionSample, htype]
  · intro cd hcd htype
    have hsample : conditionSample tf sf rf common cd =
        some (MetricSample.mk
          (common ++ [condValStr tf cd, condValStr sf cd, condValStr rf cd])
          (if eqFold (condValStr sf cd) "true" then 1 else 0)) := by
      cases cd with
      | dict cm =>
          simp only [condValStr] at htype ⊢
          simp [conditionSample, htype]
      | null => exact absurd rfl htype
      | bool b => exact absurd rfl htype
      | num q => exact absurd rfl htype
      | str s => exact absurd rfl htype
      | arr es => exact absurd rfl htype
    refine ⟨hsample, ?_⟩
    rw [hcoll]
    exact List.mem_filterMap.mpr ⟨cd, hcd, hsample⟩

/-- Witness for C7 at a concrete object: of three condition elements the
typeless one emits nothing, the Ready/True one emits value 1, and the
Progressing/False one emits value 0, for two tuples in total. -/
theorem c7_conditions_polarity_witness :
    (collectConditionsMetric condObj condCfg ["r1"]).length = 2 ∧
    MetricSample.mk ["r1", "Ready", "True", "AllGood"] 1 ∈
      collectConditionsMetric condObj condCfg ["r1"] ∧
    conditionSample "type" "status" "reason" ["r1"] condNoType = none := by
  have h := c7_conditions_polarity condObj condCfg ["r1"] "type" "status"
    "reason" rfl
  refine ⟨h.1.trans (by decide), ?_, ?_⟩
  · exact (h.2.2 condReady (List.Mem.head _) (by decide)).2
  · refine h.2.1 condNoType ?_ (by decide)
    exact List.Mem.tail _ (List.Mem.tail _ (List.Mem.head _))

theorem keys_aupsert_subset {β : Type} {k : String} {f : β → β} {init : β} :
    ∀ (l : List (String × β)), ∀ x ∈ (aupsert k f init l).map Prod.fst,
      x ∈ l.map Prod.fst ∨ x = k := by
  intro l
  induction l with
  | nil =>
      intro x hx
      simp [aupsert] at hx
      exact Or.inr hx
  | cons kv rest ih =>
      intro x hx
      obtain ⟨k2, v⟩ := kv
      by_cases h2 : k2 = k
      · simp only [aupsert, if_pos h2, List.map_cons] at hx
        rcases List.mem_cons.mp hx with he | hm
        · exact Or.inl (by simp [he])
        · exact Or.inl (by simp [hm])
      · simp only [aupsert, if_neg h2, List.map_cons] at hx
        rcases List.mem_cons.mp hx with he | hm
        · exact Or.inl (by simp [he])
        · rcases ih x hm with h3 | h3
          · exact Or.inl (by simp [h3])
          · exact Or.inr h3

theorem nodup_keys_aupsert {β : Type} (k : String) (f : β → β) (init : β)
    (l : List (String × β)) (h : (l.map Prod.fst).Nodup) :
    ((aupsert k f init l).map Prod.fst).Nodup := by
  induction l with
  | nil => simp [aupsert]
  | cons kv rest ih =>
      obtain ⟨k2, v⟩ := kv
      simp only [List.map_cons, List.nodup_cons] at h
      by_cases h2 : k2 = k
      · simp only [aupsert, if_pos h2, List.map_cons, List.nodup_cons]
        exact h
      · simp only [aupsert, if_neg h2, List.map_cons, List.nodup_cons]
        refine ⟨?_, ih h.2⟩
        intro hmem
        rcases keys_aupsert_subset rest k2 hmem with h3 | h3
        · exact h.1 h3
        · exact h2 h3

theorem alookup_eq_some_of_mem_nodup {β : Type} {l : List (String × β)}
    (hnd : (l.map Prod.fst).Nodup) :
    ∀ kv ∈ l, alookup kv.1 l = some kv.2 := by
  induction l with
  | nil => intro kv h; simp at h
  | cons kv0 rest ih =>
      intro kv h
      obtain ⟨k0, v0⟩ := kv0
      simp only [List.map_cons, List.nodup_cons] at hnd
      rcases List.mem_cons.mp h with he | hm
      · rw [he]
        simp [alookup]
      · have hk : kv.1 ≠ k0 := by
          intro he2
          exact hnd.1 (he2 ▸ List.mem_map_of_mem Prod.fst hm)
        simp only [alookup]
        rw [if_neg (fun h2 => hk h2.symm)]
        exact ih hnd.2 kv hm

theorem countFold_alookup :
    ∀ (rs : List (String × Unstructured)) (path : String)
      (acc : List (String × ℚ)) (v : String),
      alookup v (rs.foldl (countStep path) acc) =
        if v = "" then alookup v acc
        else
          match alookup v acc with
          | some c => some (c + (countOf rs path v : ℚ))
          | none =>
              if countOf rs path v = 0 then none
              else some ((countOf rs path v : ℚ)) := by
  intro rs path
  induction rs with
  | nil =>
      intro acc v
      simp only [List.foldl_nil, countOf, List.countP_nil]
      by_cases hv : v = ""
      · simp [hv]
      · rw [if_neg hv]
        cases h : alookup v acc <;> simp [h]
  | cons kv rest ih =>
      intro acc v
      rw [List.foldl_cons, ih (countStep path acc kv) v]
      have hcount : countOf (kv :: rest) path v =
          (if extractFieldString kv.2 path = v then 1 else 0) +
            countOf rest path v := by
        by_cases hwv : extractFieldString kv.2 path = v <;>
          simp [countOf, List.countP_cons, hwv] <;> omega
      by_cases hv : v = ""
      · subst hv
        rw [if_pos rfl, if_pos rfl]
        by_cases hw0 : extractFieldString kv.2 path = ""
        · simp [countStep, hw0]
        · simp only [countStep, if_neg hw0]
          exact alookup_aupsert_ne _ _ acc (fun h => hw0 h.symm)
      · rw [if_neg hv, if_neg hv, hcount]
        by_cases hw0 : extractFieldString kv.2 path = ""
        · have hwv : ¬ (extractFieldString kv.2 path = v) :=
            fun h => hv (h ▸ hw0)
          rw [if_neg hwv]
          simp [countStep, hw0]
        · by_cases hwv : extractFieldString kv.2 path = v
          · rw [if_pos hwv]
            have hstep : countStep path acc kv =
                bump (extractFieldString kv.2 path) acc := by
              simp [countStep, hw0]
            rw [hstep, hwv, bump,
              alookup_aupsert_self v (fun c => c + 1) 1 acc]
            cases h : alookup v acc with
            | none =>
                simp [Option.elim]
            | some c =>
                simp [Option.elim]
                ring
          · rw [if_neg hwv]
            have hstep : countStep path acc kv =
                bump (extractFieldString kv.2 path) acc := by
              simp [countStep, hw0]
            rw [hstep, bump,
              alookup_aupsert_ne _ _ acc (fun h => hwv h.symm)]
            simp

theorem valueCounts_alookup (rs : List (String × Unstructured))
    (path v : String) :
    alookup v (valueCounts rs path) =
      if v = "" ∨ countOf rs path v = 0 then none
      else some ((countOf rs path v : ℚ)) := by
  rw [valueCounts, countFold_alookup]
  by_cases hv : v = ""
  · simp [hv, alookup]
  · rw [if_neg hv]
    by_cases h0 : countOf rs path v = 0 <;> simp [alookup, hv, h0]

theorem valueCounts_keys_nodup (rs : List (String × Unstructured))
    (path : String) : ((valueCounts rs path).map Prod.fst).Nodup := by
  rw [valueCounts]
  have h : ∀ acc : List (String × ℚ), (acc.map Prod.fst).Nodup →
      ((rs.foldl (countStep path) acc).map Prod.fst).Nodup := by
    induction rs with
    | nil => intro acc h; exact h
    | cons kv rest ih =>
        intro acc h
        rw [List.foldl_cons]
        apply ih
        by_cases hw : extractFieldString kv.2 path = ""
        · simpa [countStep, hw] using h
        · simp only [countStep, if_neg hw]
          exact nodup_keys_aupsert _ _ _ acc h
  exact h [] (by simp)

/-- C4: the count strategy emits exactly one tuple per distinct non-empty
discovered value (no duplicate label vectors), each tuple carries the number
of cached objects with that value, and objects whose extracted value is
empty contribute to no tuple. -/
theorem c4_count_aggregate :
    ∀ (resources : List (String × Unstructured)) (cfg : MetricConfig),
      ((collectCountMetric resources cfg).map
        MetricSample.labelValues).Nodup ∧
      (∀ s2 ∈ collectCountMetric resources cfg, ∃ v,
        v ≠ "" ∧ s2.labelValues = [v] ∧ 0 < countOf resources cfg.path v ∧
        s2.value = (countOf resources cfg.path v : ℚ)) ∧
      (∀ v, v ≠ "" → 0 < countOf resources cfg.path v →
        MetricSample.mk [v] ((countOf resources cfg.path v : ℚ)) ∈
          collectCountMetric resources cfg) := by
  intro resources cfg
  refine ⟨?_, ?_, ?_⟩
  · rw [collectCountMetric, List.map_map]
    have he : (MetricSample.labelValues ∘
        fun vc : String × ℚ => MetricSample.mk [vc.1] vc.2) =
        (fun v => [v]) ∘ Prod.fst := rfl
    rw [he, ← List.map_map]
    exact (valueCounts_keys_nodup resources cfg.path).map
      (fun a b h => by simpa using h)
  · intro s2 hs2
    rw [collectCountMetric] at hs2
    obtain ⟨vc, hvc, rfl⟩ := List.mem_map.mp hs2
    have hl := alookup_eq_some_of_mem_nodup
      (valueCounts_keys_nodup resources cfg.path) vc hvc
    rw [valueCounts_alookup] at hl
    by_cases hcase : vc.1 = "" ∨ countOf resources cfg.path vc.1 = 0
    · rw [if_pos hcase] at hl
      exact absurd hl (by simp)
    · rw [if_neg hcase] at hl
      push_neg at hcase
      injection hl with hl
      exact ⟨vc.1, hcase.1, rfl, Nat.pos_of_ne_zero hcase.2, hl.symm⟩
  · intro v hv h0
    rw [collectCountMetric]
    have hl : alookup v (valueCounts resources cfg.path) =
        some ((countOf resources cfg.path v : ℚ)) := by
      rw [valueCounts_alookup,
        if_neg (by push_neg; exact ⟨hv, by omega⟩)]
    exact List.mem_map.mpr
      ⟨(v, (countOf resources cfg.path v : ℚ)),
        mem_of_alookup_eq_some hl, rfl⟩

/-- Witness for C4 at the spec's concrete distribution: discovered values
Running:3, Pending:2, Failed:1 produce tuples with exactly those counts. -/
theorem c4_count_aggregate_witness :
    MetricSample.mk ["Running"] 3 ∈
      collectCountMetric countResources countCfg ∧
    MetricSample.mk ["Pending"] 2 ∈
      collectCountMetric countResources countCfg ∧
    MetricSample.mk ["Failed"] 1 ∈
      collectCountMetric countResources countCfg := by
  have h := (c4_count_aggregate countResources countCfg).2.2
  have hR := h "Running" (by decide) (by decide)
  have hP := h "Pending" (by decide) (by decide)
  have hF := h "Failed" (by decide) (by decide)
  have eR : ((countOf countResources countCfg.path "Running" : ℕ) : ℚ) = 3 := by
    have e : countOf countResources countCfg.path "Running" = 3 := by decide
    rw [e]
    norm_num
  have eP : ((countOf countResources countCfg.path "Pending" : ℕ) : ℚ) = 2 := by
    have e : countOf countResources countCfg.path "Pending" = 2 := by decide
    rw [e]
    norm_num
  have eF : ((countOf countResources countCfg.path "Failed" : ℕ) : ℚ) = 1 := by
    have e : countOf countResources countCfg.path "Failed" = 1 := by decide
    rw [e]
    norm_num
  rw [eR] at hR
  rw [eP] at hP
  rw [eF] at hF
  exact ⟨hR, hP, hF⟩

theorem metricLabelNames_isSome (cln : List String) (mc : MetricConfig) :
    (metricLabelNames cln mc).isSome = recognizedMetricType mc.type := by
  rw [metricLabelNames, recognizedMetricType]
  split_ifs <;> simp_all

theorem mem_aset_cases {β : Type} {k : String} {v : β} {l : List (String × β)} :
    ∀ kv ∈ aset k v l, kv = (k, v) ∨ kv ∈ l := by
  induction l with
  | nil =>
      intro kv h
      simp [aset, aupsert] at h
      exact Or.inl (by simp [h])
  | cons kv0 rest ih =>
      intro kv h
      obtain ⟨k2, u⟩ := kv0
      by_cases h2 : k2 = k
      · simp only [aset, aupsert, if_pos h2] at h
        rcases List.mem_cons.mp h with he | hm
        · exact Or.inl (by rw [he, h2])
        · exact Or.inr (List.mem_cons_of_mem _ hm)
      · simp only [aset, aupsert, if_neg h2] at h
        rcases List.mem_cons.mp h with he | hm
        · exact Or.inr (by simp [he])
        · rcases ih kv hm with h3 | h3
          · exact Or.inl h3
          · exact Or.inr (List.mem_cons_of_mem _ h3)

theorem initMetricsGo_warns_mono :
    ∀ (ms : List MetricConfig) (pfx : String) (cln : List String)
      (descs : List (String × Desc)) (warns : List String),
      warns ⊆ (initMetricsGo pfx cln descs warns ms).2 := by
  intro ms
  induction ms with
  | nil =>
      intro pfx cln descs warns
      simp [initMetricsGo]
  | cons mc0 rest ih =>
      intro pfx cln descs warns
      cases h : metricLabelNames cln mc0 with
      | some lns =>
          simp only [initMetricsGo, h]
          exact ih pfx cln _ warns
      | none =>
          simp only [initMetricsGo, h]
          exact List.Subset.trans (List.subset_append_left warns [mc0.type])
            (ih pfx cln descs (warns ++ [mc0.type]))

theorem initMetricsGo_warns_of_none :
    ∀ (ms : List MetricConfig) (pfx : String) (cln : List String)
      (descs : List (String × Desc)) (warns : List String)
      (mc : MetricConfig), mc ∈ ms → metricLabelNames cln mc = none →
        mc.type ∈ (initMetricsGo pfx cln descs warns ms).2 := by
  intro ms
  induction ms with
  | nil =>
      intro _ _ _ _ mc h _
      simp at h
  | cons mc0 rest ih =>
      intro pfx cln descs warns mc hmem hnone
      rcases List.mem_cons.mp hmem with he | hm
      · subst he
        simp only [initMetricsGo, hnone]
        exact initMetricsGo_warns_mono rest pfx cln descs _
          (by simp)
      · cases h : metricLabelNames cln mc0 with
        | some lns =>
            simp only [initMetricsGo, h]
            exact ih pfx cln _ warns mc hm hnone
        | none =>
            simp only [initMetricsGo, h]
            exact ih pfx cln descs _ mc hm hnone

theorem initMetricsGo_descs_provenance :
    ∀ (ms : List MetricConfig) (pfx : String) (cln : List String)
      (descs : List (String × Desc)) (warns : List String)
      (nd : String × Desc), nd ∈ (initMetricsGo pfx cln descs warns ms).1 →
        nd ∈ descs ∨ ∃ mc ∈ ms, mc.name = nd.1 ∧
          (metricLabelNames cln mc).isSome = true := by
  intro ms
  induction ms with
  | nil =>
      intro pfx cln descs warns nd h
      simp only [initMetricsGo] at h
      exact Or.inl h
  | cons mc0 rest ih =>
      intro pfx cln descs warns nd h
      cases hl : metricLabelNames cln mc0 with
      | some lns =>
          simp only [initMetricsGo, hl] at h
          rcases ih pfx cln _ warns nd h with h2 | ⟨mc, hmc, h3⟩
          · rcases mem_aset_cases nd h2 with h3 | h3
            · refine Or.inr ⟨mc0, by simp, ?_, by simp [hl]⟩
              rw [h3]
            · exact Or.inl h3
          · exact Or.inr ⟨mc, List.mem_cons_of_mem _ hmc, h3⟩
      | none =>
          simp only [initMetricsGo, hl] at h
          rcases ih pfx cln descs _ nd h with h2 | ⟨mc, hmc, h3⟩
          · exact Or.inl h2
          · exact Or.inr ⟨mc, List.mem_cons_of_mem _ hmc, h3⟩

theorem collect_descriptor_present :
    ∀ (c : ConfigurableCollector), ∀ p ∈ collect c,
      (alookup p.1 c.descriptors).isSome = true := by
  intro c p hp
  rw [collect] at hp
  rcases List.mem_append.mp hp with h | h
  · obtain ⟨kv, hkv, h2⟩ := List.mem_flatMap.mp h
    obtain ⟨mc, hmc, h3⟩ := List.mem_flatMap.mp h2
    cases hl : alookup mc.name c.descriptors with
    | none =>
        rw [hl] at h3
        simp at h3
    | some d =>
        rw [hl] at h3
        obtain ⟨s2, hs2, hps⟩ := List.mem_map.mp h3
        rw [← hps]
        simp [hl]
  · obtain ⟨mc, hmc, h2⟩ := List.mem_flatMap.mp h
    by_cases ht : mc.type ≠ "count"
    · rw [if_pos ht] at h2
      simp at h2
    · rw [if_neg ht] at h2
      cases hl : alookup mc.name c.descriptors with
      | none =>
          rw [hl] at h2
          simp at h2
      | some d =>
          rw [hl] at h2
          obtain ⟨s2, hs2, hps⟩ := List.mem_map.mp h2
          rw [← hps]
          simp [hl]

/-- Counterexample to C1 as stated: construction over a configuration
holding an unrecognized metric type succeeds and returns a working
collector — the bad metric is dropped from the descriptor set with only a
logged warning, no configuration error is surfaced, and scraping proceeds
emitting the remaining metrics. -/
theorem c1_counterexample :
    (NewConfigurableCollector badTypeCfg "test").descriptors.map Prod.fst =
      ["good"] ∧
    (NewConfigurableCollector badTypeCfg "test").warnings = ["bogus"] ∧
    (collect (handleAdd (NewConfigurableCollector badTypeCfg "test")
        objBefore)).map Prod.fst = ["good"] := by
  exact ⟨by decide, by decide, by decide⟩

/-- C1 amended: an unrecognized metric type is detected at descriptor-build
time — no descriptor is ever built for it, the rejection is not deferred to
scrape time (collection only emits for metrics holding a descriptor) — but
construction does not fail: it logs a warning naming the offending type and
silently drops the metric. -/
theorem c1_unknown_type_detected :
    ∀ (cfg : CRDConfig) (px : String) (mc : MetricConfig),
      mc ∈ cfg.metrics → recognizedMetricType mc.type = false →
        mc.type ∈ (initMetrics cfg px).2 ∧
        (∀ nd ∈ (initMetrics cfg px).1, ∃ mc2 ∈ cfg.metrics,
          mc2.name = nd.1 ∧ recognizedMetricType mc2.type = true) ∧
        (∀ (c : ConfigurableCollector), ∀ p ∈ collect c,
          (alookup p.1 c.descriptors).isSome = true) := by
  intro cfg px mc hmem hbad
  have hnone : metricLabelNames (getSortedKeys cfg.commonLabels) mc = none := by
    have h := metricLabelNames_isSome (getSortedKeys cfg.commonLabels) mc
    rw [hbad] at h
    cases h2 : metricLabelNames (getSortedKeys cfg.commonLabels) mc with
    | none => rfl
    | some lns =>
        rw [h2] at h
        simp at h
  refine ⟨?_, ?_, collect_descriptor_present⟩
  · exact initMetricsGo_warns_of_none cfg.metrics _ _ [] [] mc hmem hnone
  · intro nd hnd
    rcases initMetricsGo_descs_provenance cfg.metrics _ _ [] [] nd hnd with
      h | ⟨mc2, hmc2, hname, hsome⟩
    · simp at h
    · refine ⟨mc2, hmc2, hname, ?_⟩
      rw [← metricLabelNames_isSome (getSortedKeys cfg.commonLabels) mc2]
      exact hsome

/-- Witness for the amended C1 at a concrete configuration. -/
theorem c1_unknown_type_detected_witness :
    "bogus" ∈ (initMetrics badTypeCfg "test").2 ∧
    (∀ nd ∈ (initMetrics badTypeCfg "test").1, ∃ mc2 ∈ badTypeCfg.metrics,
      mc2.name = nd.1 ∧ recognizedMetricType mc2.type = true) := by
  have h := c1_unknown_type_detected badTypeCfg "test" bogusMetric
    (by decide) (by decide)
  exact ⟨h.1, h.2.1⟩

end SealosStateMetrics
